import Mathlib

/-!
Shallow embedding of the k-means clustering engine of
`include/cilantro/kmeans.hpp` (class `cilantro::KMeans`), together with
theorems checking the natural-language specification against it.

Modelling conventions:
* Points and centroids are rational vectors (`List ℚ`); the source's scalar
  type is a floating-point parameter, and all arithmetic the claims exercise
  (sums, squared Euclidean norms, divisions by integer counts) is exact on
  the inputs considered here.
* Only the brute-force assignment path with the compile-time L2 fast path is
  modelled (`use_kd_tree = false`, `DistAdaptor = L2`, the configuration of
  the `KMeans2D`/`KMeans3D` typedefs); distances are squared Euclidean norms.
* The OpenMP-parallel loops are modelled by their sequential semantics: the
  changed-flag is an or-reduction and the extremum searches take ties in
  ascending scan order, which is the deterministic order the spec itself
  uses for tie-breaking.
* The variable `extr_dist_ind` is read uninitialized when the per-point scan
  over clusters runs zero times (zero centroids); this undefined behaviour is
  surfaced as the error value `uninitializedRead`.  Writing to
  `cluster_point_indices_[j]` for `j` out of range (possible when the final
  assignment map holds an index at or beyond `num_clusters`) is undefined
  behaviour surfaced as `bucketOutOfBounds`.
* The source divides `1.0/point_count[i]` in floating point, where a zero
  count yields infinity instead of trapping; the embedding records whether
  any final per-cluster division had a zero count in the flag `divByZero`
  (over `ℚ`, where `1/0 = 0`, the quotient itself is the zero vector).
-/

namespace Cilantro

/-- A point or centroid: one column of the data / centroid matrix. -/
abbrev Vec := List ℚ

/-- Componentwise vector addition (Eigen `+=` on a column). -/
def vadd (a b : Vec) : Vec := List.zipWith (· + ·) a b

/-- Componentwise vector subtraction (Eigen column difference). -/
def vsub (a b : Vec) : Vec := List.zipWith (· - ·) a b

/-- Scalar multiple of a vector (Eigen `*= scale`). -/
def smul (c : ℚ) (v : Vec) : Vec := v.map (fun x => c * x)

/-- Squared Euclidean norm (`squaredNorm()`), the L2 fast-path distance. -/
def sqNorm (v : Vec) : ℚ := (v.map (fun x => x * x)).sum

/-- Undefined behaviours of `KMeans::cluster_`, made explicit. -/
inductive KMeansError where
  | uninitializedRead : KMeansError
  | bucketOutOfBounds : KMeansError
deriving DecidableEq, Repr

/-- Inner scan of the brute-force assignment pass (kmeans.hpp:101-115):
`extr_dist` starts at infinity, so the first centroid is always accepted;
a strictly smaller distance replaces the current best, hence ties keep the
lowest cluster index.  The accumulator `none` models the state before any
centroid has been scanned. -/
def nearGo (p : Vec) : List Vec → ℕ → Option (ℚ × ℕ) → Option (ℚ × ℕ)
  | [], _, best => best
  | c :: cs, j, best =>
    let d := sqNorm (vsub c p)
    match best with
    | none => nearGo p cs (j + 1) (some (d, j))
    | some (bd, bj) =>
      if d < bd then nearGo p cs (j + 1) (some (d, j))
      else nearGo p cs (j + 1) (some (bd, bj))

/-- Index of the nearest centroid to `p` (`extr_dist_ind` after the scan);
`none` when there are no centroids and `extr_dist_ind` stays uninitialized. -/
def nearestCluster (centroids : List Vec) (p : Vec) : Option ℕ :=
  (nearGo p centroids 0 none).map (fun x => x.2)

/-- Assignment pass over the zipped (point, previous assignment) list
(kmeans.hpp:100-118).  Returns the new assignment map together with the
`assignments_unchanged` flag; reading `extr_dist_ind` with no centroids is
the `uninitializedRead` undefined behaviour. -/
def assignGo (centroids : List Vec) : List (Vec × ℕ) → Except KMeansError (List ℕ × Bool)
  | [] => .ok ([], true)
  | (p, m) :: rest =>
    match nearestCluster centroids p with
    | none => .error .uninitializedRead
    | some j =>
      match assignGo centroids rest with
      | .error e => .error e
      | .ok (ms, unch) => .ok (j :: ms, unch && (j == m))

/-- Centroid-sum and point-count accumulation scan (kmeans.hpp:125-130),
processing (point, assignment) pairs left to right. -/
def accumGo : List (Vec × ℕ) → List Vec → List ℕ → List Vec × List ℕ
  | [], sums, counts => (sums, counts)
  | (p, j) :: rest, sums, counts =>
    accumGo rest (sums.set j (vadd (sums.getD j []) p)) (counts.set j (counts.getD j 0 + 1))

/-- Intermediate state of the centroid-update / empty-cluster-repair phase:
the running per-cluster sums (the reused centroid matrix), the per-cluster
point counts, and the assignment map. -/
structure AccState where
  sums : List Vec
  counts : List ℕ
  map : List ℕ
deriving DecidableEq, Repr

/-- Largest-cluster search (kmeans.hpp:137-140): `max_ind` starts at 0 and
scans `j = 1 .. K-1`, replacing only on a strictly greater count, so ties
keep the lowest index. -/
def largestCluster (counts : List ℕ) : ℕ :=
  ((List.range counts.length).drop 1).foldl
    (fun mx j => if counts.getD j 0 > counts.getD mx 0 then j else mx) 0

/-- Farthest-point scan of the repair step (kmeans.hpp:146-163): walk the
(point, assignment) pairs, consider those assigned to `target`, and keep the
point of strictly greatest squared distance to `oldCentroid`; `extr_dist`
starts at -1, so the first considered point is always accepted, which the
`none` accumulator models. -/
def farthestGo (target : ℕ) (oldCentroid : Vec) :
    List (Vec × ℕ) → ℕ → Option (ℚ × ℕ) → Option (ℚ × ℕ)
  | [], _, best => best
  | (p, m) :: rest, j, best =>
    if m == target then
      let d := sqNorm (vsub oldCentroid p)
      match best with
      | none => farthestGo target oldCentroid rest (j + 1) (some (d, j))
      | some (bd, bj) =>
        if d > bd then farthestGo target oldCentroid rest (j + 1) (some (d, j))
        else farthestGo target oldCentroid rest (j + 1) (some (bd, bj))
    else farthestGo target oldCentroid rest (j + 1) best

/-- Body of the empty-cluster loop for one cluster index `i`
(kmeans.hpp:133-170): skip when `point_count[i] != 0`; otherwise locate the
largest cluster, scan for its farthest point from its pre-repair mean, and
move that point: reassign it, subtract it from the source cluster's sum
(nothing is added to the destination sum), decrement the source count and
increment the destination count.  The scan finds a point whenever the
largest cluster is nonempty; the impossible empty case leaves the state
unchanged (the source would reuse a stale `extr_dist_ind` there, a state no
reachable run produces since repair only runs when some point moved). -/
def repairOne (data : List Vec) (st : AccState) (i : ℕ) : AccState :=
  if st.counts.getD i 0 ≠ 0 then st
  else
    let maxInd := largestCluster st.counts
    let scale : ℚ := 1 / (st.counts.getD maxInd 0 : ℚ)
    let oldCentroid := smul scale (st.sums.getD maxInd [])
    match farthestGo maxInd oldCentroid (data.zip st.map) 0 none with
    | none => st
    | some (_, jstar) =>
      let counts1 := st.counts.set maxInd (st.counts.getD maxInd 0 - 1)
      ⟨st.sums.set maxInd (vsub (st.sums.getD maxInd []) (data.getD jstar [])),
       counts1.set i (counts1.getD i 0 + 1),
       st.map.set jstar i⟩

/-- The whole empty-cluster-repair pass: clusters processed in ascending
index order (kmeans.hpp:133-170). -/
def repairPass (data : List Vec) (numClusters : ℕ) (st : AccState) : AccState :=
  (List.range numClusters).foldl (repairOne data) st

/-- Final per-cluster division (kmeans.hpp:173-176): each cluster's sum is
scaled by `1.0/point_count[i]`. -/
def divideCentroids (sums : List Vec) (counts : List ℕ) : List Vec :=
  List.zipWith (fun s (c : ℕ) => smul (1 / (c : ℚ)) s) sums counts

/-- Maximum per-column squared displacement
(`(new - old).colwise().squaredNorm().maxCoeff()`, kmeans.hpp:181); the base
0 of the fold is neutral because squared norms are nonnegative and the
check only runs with at least one cluster. -/
def maxColDispSq (a b : List Vec) : ℚ :=
  (List.zipWith (fun x y => sqNorm (vsub x y)) a b).foldl max 0

/-- Mutable state of the main iteration loop of `cluster_`. -/
structure LoopState where
  centroids : List Vec
  map : List ℕ
  iter : ℕ
  divByZero : Bool
deriving DecidableEq, Repr

/-- The per-cluster sums after `setZero()` (the centroid matrix keeps its
shape) and counts after accumulation (kmeans.hpp:125-130). -/
def accumulateFrom (data : List Vec) (mapAsg : List ℕ) (centroids : List Vec)
    (numClusters : ℕ) : List Vec × List ℕ :=
  accumGo (data.zip mapAsg) (centroids.map (List.map (fun _ => (0 : ℚ))))
    (List.replicate numClusters 0)

/-- The centroid-update, empty-cluster-repair and final-division phase of one
iteration (kmeans.hpp:124-178): accumulate sums and counts over the new
assignments, repair empty clusters, divide each cluster's sum by its
(possibly zero) count, and increment the iteration counter; the flag records
whether any division had a zero count. -/
def iterateOnce (data : List Vec) (numClusters : ℕ) (st : LoopState)
    (newMap : List ℕ) : LoopState :=
  let acc := accumulateFrom data newMap st.centroids numClusters
  let rep := repairPass data numClusters ⟨acc.1, acc.2, newMap⟩
  ⟨divideCentroids rep.sums rep.counts, rep.map, st.iter + 1,
   st.divByZero || rep.counts.any (· == 0)⟩

/-- The iteration loop of `cluster_` (kmeans.hpp:84-182), with
`fuel = max_iter - iteration_count_` as the decreasing measure.  Each pass:
assignment update; break (keeping the centroids) when nothing changed;
otherwise run `iterateOnce` and stop early when `tol > 0` and the maximum
centroid displacement against the snapshot is below `tol*tol`. -/
def loopGo (data : List Vec) (tol : ℚ) (numClusters : ℕ) :
    ℕ → LoopState → Except KMeansError LoopState
  | 0, st => .ok st
  | fuel + 1, st =>
    match assignGo st.centroids (data.zip st.map) with
    | .error e => .error e
    | .ok (newMap, unchanged) =>
      if unchanged then .ok ⟨st.centroids, newMap, st.iter, st.divByZero⟩
      else
        let st' := iterateOnce data numClusters st newMap
        if tol > 0 ∧ maxColDispSq st'.centroids st.centroids < tol * tol then .ok st'
        else loopGo data tol numClusters fuel st'

/-- Bucket materialization (kmeans.hpp:184-187): walk the assignment map and
append each point index to its cluster's bucket; an assignment at or beyond
the number of buckets is an out-of-bounds `emplace_back`. -/
def mkBucketsGo : List ℕ → ℕ → List (List ℕ) → Except KMeansError (List (List ℕ))
  | [], _, bs => .ok bs
  | j :: rest, i, bs =>
    if j < bs.length then mkBucketsGo rest (i + 1) (bs.set j (bs.getD j [] ++ [i]))
    else .error .bucketOutOfBounds

/-- The resized (empty) buckets filled from the final assignment map. -/
def mkBuckets (mapAsg : List ℕ) (numClusters : ℕ) : Except KMeansError (List (List ℕ)) :=
  mkBucketsGo mapAsg 0 (List.replicate numClusters [])

/-- Observable outcome of one clustering invocation: the accessor values
`getClusterCentroids`, `getClusterIndexMap`, `getClusterPointIndices`,
`getPerformedIterationsCount`, plus the zero-count-division flag. -/
structure KMeansResult where
  centroids : List Vec
  indexMap : List ℕ
  buckets : List (List ℕ)
  iterations : ℕ
  divByZero : Bool
deriving DecidableEq, Repr

/-- `KMeans::cluster_` on a fresh `KMeans` object (kmeans.hpp:65-188):
`cluster_index_map_` is resized from empty to `num_points` entries, which
value-initializes them all to 0; then the iteration loop runs and the final
buckets are materialized. -/
def cluster_ (data centroids : List Vec) (maxIter : ℕ) (tol : ℚ) :
    Except KMeansError KMeansResult :=
  match loopGo data tol centroids.length maxIter
      ⟨centroids, List.replicate data.length 0, 0, false⟩ with
  | .error e => .error e
  | .ok st =>
    match mkBuckets st.map centroids.length with
    | .error e => .error e
    | .ok bs => .ok ⟨st.centroids, st.map, bs, st.iter, st.divByZero⟩

/-- Centroid seeding of the `cluster(num_clusters, ...)` overload
(kmeans.hpp:26-40): Fisher-Yates-style selection without replacement; the
`draws` list carries the successive raw outputs of the random source, each
reduced modulo the shrinking eligible range. -/
def initGo (data : List Vec) : ℕ → List ℕ → ℕ → List ℕ → List Vec
  | 0, _, _, _ => []
  | k + 1, range, prevSize, draws =>
    let randInd := draws.headD 0 % prevSize
    let picked := range.getD randInd 0
    let range' := (range.set randInd (range.getD (prevSize - 1) 0)).set (prevSize - 1) picked
    data.getD picked [] :: initGo data k range' (prevSize - 1) draws.tail

/-- Initial centroids of the `cluster(num_clusters, ...)` overload: the
requested count is clamped to the number of points (kmeans.hpp:26), then
that many distinct points are selected. -/
def initCentroids (data : List Vec) (numClusters : ℕ) (draws : List ℕ) : List Vec :=
  let cols := if numClusters > data.length then data.length else numClusters
  initGo data cols (List.range data.length) data.length draws

/-- The `cluster(num_clusters, max_iter, tol, use_kd_tree=false)` overload
(kmeans.hpp:25-44): seed centroids, then run `cluster_`. -/
def clusterWithK (data : List Vec) (numClusters : ℕ) (draws : List ℕ)
    (maxIter : ℕ) (tol : ℚ) : Except KMeansError KMeansResult :=
  cluster_ data (initCentroids data numClusters draws) maxIter tol

/-- Specification-side description of one bucket: the positions (offset by
`i`) of the assignment-map entries equal to `j`, in scan order. -/
def bucketSpec (j : ℕ) : List ℕ → ℕ → List ℕ
  | [], _ => []
  | e :: rest, i =>
    if e = j then i :: bucketSpec j rest (i + 1) else bucketSpec j rest (i + 1)

/-- Invariant tying the repair-phase state to the data: the assignment map
covers the points, all assignments are in range, and each cluster's count is
the number of points assigned to it. -/
def histInv (data : List Vec) (K : ℕ) (st : AccState) : Prop :=
  st.map.length = data.length ∧
  st.counts.length = K ∧
  st.sums.length = K ∧
  (∀ e ∈ st.map, e < K) ∧
  (∀ j, j < K → st.counts.getD j 0 = st.map.count j)

section ListHelpers

variable {α : Type _} {β : Type _} {γ : Type _}

/-- Reading back a just-written list entry. -/
theorem getD_set_self {l : List α} {i : ℕ} (a d : α) (h : i < l.length) :
    (l.set i a).getD i d = a := by
  simp [List.getD_eq_getElem?_getD, List.getElem?_set_self h]

/-- Writing one entry leaves the others unchanged. -/
theorem getD_set_ne {l : List α} {i j : ℕ} (a d : α) (h : i ≠ j) :
    (l.set i a).getD j d = l.getD j d := by
  simp [List.getD_eq_getElem?_getD, List.getElem?_set_ne h]

/-- Reading past the end of a list gives the default. -/
theorem getD_eq_default {l : List α} {i : ℕ} (d : α) (h : l.length ≤ i) :
    l.getD i d = d := by
  simp [List.getD_eq_getElem?_getD, List.getElem?_eq_none h]

/-- An in-range default read is a list element. -/
theorem getD_mem {l : List α} {i : ℕ} (d : α) (h : i < l.length) :
    l.getD i d ∈ l := by
  simp only [List.getD_eq_getElem?_getD, List.getElem?_eq_getElem h, Option.getD_some]
  exact List.getElem_mem h

/-- Default read through `List.map`. -/
theorem getD_map {l : List α} {i : ℕ} (f : α → β) (d : β) (d' : α) (h : i < l.length) :
    (l.map f).getD i d = f (l.getD i d') := by
  simp [List.getD_eq_getElem?_getD, List.getElem?_eq_getElem h,
    List.getElem?_eq_getElem (by simpa using h : i < (l.map f).length)]

/-- Default read through `List.zip`. -/
theorem getD_zip {a : List α} {b : List β} {k : ℕ} (da : α) (db : β)
    (ha : k < a.length) (hb : k < b.length) :
    (a.zip b).getD k (da, db) = (a.getD k da, b.getD k db) := by
  have hz : k < (a.zip b).length := by simp [List.length_zip]; omega
  simp only [List.getD_eq_getElem?_getD, List.getElem?_eq_getElem hz,
    List.getElem?_eq_getElem ha, List.getElem?_eq_getElem hb, Option.getD_some]
  simp [List.getElem_zip]

/-- Default read through `List.zipWith`. -/
theorem getD_zipWith {f : α → β → γ} {a : List α} {b : List β} {k : ℕ}
    (da : α) (db : β) (dc : γ) (ha : k < a.length) (hb : k < b.length) :
    (List.zipWith f a b).getD k dc = f (a.getD k da) (b.getD k db) := by
  have hz : k < (List.zipWith f a b).length := by simp [List.length_zipWith]; omega
  simp only [List.getD_eq_getElem?_getD, List.getElem?_eq_getElem hz,
    List.getElem?_eq_getElem ha, List.getElem?_eq_getElem hb, Option.getD_some]
  simp [List.getElem_zipWith]

/-- Occurrence counting before and after a single write, in addition form. -/
theorem count_set_add (m : List ℕ) (r b x : ℕ) (h : r < m.length) :
    (m.set r b).count x + (if m.getD r 0 = x then 1 else 0)
      = m.count x + (if b = x then 1 else 0) := by
  induction m generalizing r with
  | nil => simp at h
  | cons y ys ih =>
    cases r with
    | zero =>
      simp only [List.set_cons_zero, List.getD_cons_zero, List.count_cons]
      by_cases hb : b = x <;> by_cases hy : y = x <;> simp [hb, hy] <;> omega
    | succ n =>
      simp only [List.set_cons_succ, List.getD_cons_succ, List.count_cons]
      have h' := ih n (by simpa using h)
      by_cases hy : y = x <;> simp [hy] at h' ⊢ <;> omega

/-- Total bucket size grows by exactly one at each in-range append. -/
theorem sizes_set_append (bs : List (List ℕ)) (j i : ℕ) (h : j < bs.length) :
    ((bs.set j (bs.getD j [] ++ [i])).map List.length).sum
      = (bs.map List.length).sum + 1 := by
  induction bs generalizing j with
  | nil => simp at h
  | cons b rest ih =>
    cases j with
    | zero => simp [Nat.add_assoc, Nat.add_comm, Nat.add_left_comm]
    | succ n =>
      simp only [List.set_cons_succ, List.getD_cons_succ, List.map_cons, List.sum_cons,
        ih n (by simpa using h)]
      omega

end ListHelpers

section BucketLemmas

/-- Bucket materialization never changes the number of buckets. -/
theorem mkBucketsGo_ok_length :
    ∀ (l : List ℕ) (i : ℕ) (bs bs' : List (List ℕ)),
    mkBucketsGo l i bs = .ok bs' → bs'.length = bs.length := by
  intro l
  induction l with
  | nil => intro i bs bs' h; cases h; rfl
  | cons j rest ih =>
    intro i bs bs' h
    simp only [mkBucketsGo] at h
    split at h
    · exact (ih _ _ _ h).trans (by simp)
    · cases h

/-- Bucket materialization succeeds only when every assignment is in range. -/
theorem mkBucketsGo_ok_bound :
    ∀ (l : List ℕ) (i : ℕ) (bs bs' : List (List ℕ)),
    mkBucketsGo l i bs = .ok bs' → ∀ e ∈ l, e < bs.length := by
  intro l
  induction l with
  | nil => intro _ _ _ _ e he; cases he
  | cons j rest ih =>
    intro i bs bs' h e he
    simp only [mkBucketsGo] at h
    split at h
    · rcases List.mem_cons.mp he with rfl | he'
      · assumption
      · have := ih _ _ _ h e he'
        simpa using this
    · cases h

/-- What each bucket holds after materialization: the old content followed by
the scan-order positions of the matching assignments. -/
theorem mkBucketsGo_char :
    ∀ (l : List ℕ) (i : ℕ) (bs bs' : List (List ℕ)),
    mkBucketsGo l i bs = .ok bs' →
    ∀ j, j < bs.length → bs'.getD j [] = bs.getD j [] ++ bucketSpec j l i := by
  intro l
  induction l with
  | nil => intro i bs bs' h j hj; cases h; simp [bucketSpec]
  | cons e rest ih =>
    intro i bs bs' h j hj
    simp only [mkBucketsGo] at h
    split at h
    · have hrec := ih _ _ _ h j (by simpa using hj)
      by_cases hej : e = j
      · subst hej
        rw [hrec, getD_set_self _ _ (by assumption)]
        simp [bucketSpec, List.append_assoc]
      · rw [hrec, getD_set_ne _ _ hej]
        simp [bucketSpec, hej]
    · cases h

/-- Total bucket content grows by one entry per point. -/
theorem mkBucketsGo_sum :
    ∀ (l : List ℕ) (i : ℕ) (bs bs' : List (List ℕ)),
    mkBucketsGo l i bs = .ok bs' →
    (bs'.map List.length).sum = (bs.map List.length).sum + l.length := by
  intro l
  induction l with
  | nil => intro i bs bs' h; cases h; rfl
  | cons j rest ih =>
    intro i bs bs' h
    simp only [mkBucketsGo] at h
    split at h
    · have := ih _ _ _ h
      rw [this, sizes_set_append _ _ _ (by assumption)]
      simp; omega
    · cases h

/-- Membership in the specification-side bucket description. -/
theorem mem_bucketSpec {j : ℕ} :
    ∀ (l : List ℕ) (i t : ℕ),
    t ∈ bucketSpec j l i ↔ ∃ k, k < l.length ∧ l.getD k 0 = j ∧ t = i + k := by
  intro l
  induction l with
  | nil => intro i t; simp [bucketSpec]
  | cons e rest ih =>
    intro i t
    simp only [bucketSpec]
    by_cases hej : e = j
    · rw [if_pos hej]
      simp only [List.mem_cons]
      constructor
      · rintro (rfl | ht)
        · exact ⟨0, by simp, by simpa using hej, by simp⟩
        · obtain ⟨k, hk, hke, rfl⟩ := (ih (i + 1) t).mp ht
          exact ⟨k + 1, by simpa using hk, by simpa using hke, by omega⟩
      · rintro ⟨k, hk, hke, rfl⟩
        cases k with
        | zero => simp
        | succ n =>
          right
          exact (ih (i + 1) (i + (n + 1))).mpr
            ⟨n, by simpa using hk, by simpa using hke, by omega⟩
    · rw [if_neg hej]
      constructor
      · intro ht
        obtain ⟨k, hk, hke, rfl⟩ := (ih (i + 1) t).mp ht
        exact ⟨k + 1, by simpa using hk, by simpa using hke, by omega⟩
      · rintro ⟨k, hk, hke, rfl⟩
        cases k with
        | zero => simp at hke; exact absurd hke hej
        | succ n =>
          exact (ih (i + 1) (i + (n + 1))).mpr
            ⟨n, by simpa using hk, by simpa using hke, by omega⟩

/-- Materializing an all-zeros assignment map appends every position to the
first bucket. -/
theorem mkBucketsGo_zero :
    ∀ (n i : ℕ) (b : List ℕ) (rest : List (List ℕ)),
    mkBucketsGo (List.replicate n 0) i (b :: rest) =
      .ok ((b ++ List.range' i n) :: rest) := by
  intro n
  induction n with
  | zero => intro i b rest; simp [mkBucketsGo]
  | succ m ih =>
    intro i b rest
    rw [List.replicate_succ]
    simp only [mkBucketsGo, List.length_cons, if_pos (Nat.succ_pos _)]
    rw [show ((b :: rest).set 0 ((b :: rest).getD 0 [] ++ [i])) = (b ++ [i]) :: rest by simp]
    rw [ih (i + 1) (b ++ [i]) rest]
    rw [List.range'_succ]
    simp

end BucketLemmas

section LengthLemmas

/-- The assignment pass produces one assignment per scanned pair. -/
theorem assignGo_length (centroids : List Vec) :
    ∀ (L : List (Vec × ℕ)) (nm : List ℕ) (u : Bool),
    assignGo centroids L = .ok (nm, u) → nm.length = L.length := by
  intro L
  induction L with
  | nil => intro nm u h; cases h; rfl
  | cons pm rest ih =>
    intro nm u h
    obtain ⟨p, m⟩ := pm
    simp only [assignGo] at h
    cases hn : nearestCluster centroids p with
    | none => rw [hn] at h; cases h
    | some j =>
      rw [hn] at h
      cases hr : assignGo centroids rest with
      | error e => rw [hr] at h; cases h
      | ok pr =>
        obtain ⟨ms, u'⟩ := pr
        rw [hr] at h
        cases h
        simpa using ih ms u' hr

/-- One repair step never changes the shapes of the sums, counts and map. -/
theorem repairOne_lengths (data : List Vec) (st : AccState) (i : ℕ) :
    (repairOne data st i).sums.length = st.sums.length ∧
    (repairOne data st i).counts.length = st.counts.length ∧
    (repairOne data st i).map.length = st.map.length := by
  simp only [repairOne]
  by_cases h0 : st.counts.getD i 0 ≠ 0
  · rw [if_pos h0]
    exact ⟨rfl, rfl, rfl⟩
  · rw [if_neg h0]
    cases hf : farthestGo (largestCluster st.counts)
        (smul (1 / (st.counts.getD (largestCluster st.counts) 0 : ℚ))
          (st.sums.getD (largestCluster st.counts) [])) (data.zip st.map) 0 none with
    | none => exact ⟨rfl, rfl, rfl⟩
    | some pr =>
      obtain ⟨d, jstar⟩ := pr
      exact ⟨by simp, by simp, by simp⟩

/-- The repair pass never changes the shapes of the sums, counts and map. -/
theorem repairFold_lengths (data : List Vec) :
    ∀ (L : List ℕ) (st : AccState),
    (L.foldl (repairOne data) st).sums.length = st.sums.length ∧
    (L.foldl (repairOne data) st).counts.length = st.counts.length ∧
    (L.foldl (repairOne data) st).map.length = st.map.length := by
  intro L
  induction L with
  | nil => intro st; exact ⟨rfl, rfl, rfl⟩
  | cons i rest ih =>
    intro st
    obtain ⟨h1, h2, h3⟩ := ih (repairOne data st i)
    obtain ⟨g1, g2, g3⟩ := repairOne_lengths data st i
    exact ⟨by simp only [List.foldl_cons]; omega, by simp only [List.foldl_cons]; omega,
      by simp only [List.foldl_cons]; omega⟩

/-- Accumulation never changes the shapes of the sums and counts. -/
theorem accumGo_lengths :
    ∀ (L : List (Vec × ℕ)) (sums : List Vec) (counts : List ℕ),
    (accumGo L sums counts).1.length = sums.length ∧
    (accumGo L sums counts).2.length = counts.length := by
  intro L
  induction L with
  | nil => intro sums counts; exact ⟨rfl, rfl⟩
  | cons pj rest ih =>
    intro sums counts
    obtain ⟨p, j⟩ := pj
    obtain ⟨h1, h2⟩ := ih (sums.set j (vadd (sums.getD j []) p)) (counts.set j (counts.getD j 0 + 1))
    simp only [accumGo]
    constructor
    · rw [h1]; simp
    · rw [h2]; simp

/-- Loop unfolding: an unchanged assignment pass ends the loop at once,
keeping the centroids and the iteration counter. -/
theorem loopGo_succ_unchanged (data : List Vec) (tol : ℚ) (K fuel : ℕ)
    (st : LoopState) (newMap : List ℕ)
    (ha : assignGo st.centroids (data.zip st.map) = .ok (newMap, true)) :
    loopGo data tol K (fuel + 1) st
      = .ok ⟨st.centroids, newMap, st.iter, st.divByZero⟩ := by
  simp [loopGo, ha]

/-- Loop unfolding: a changed assignment pass runs `iterateOnce` and either
stops on the tolerance check or recurses. -/
theorem loopGo_succ_changed (data : List Vec) (tol : ℚ) (K fuel : ℕ)
    (st : LoopState) (newMap : List ℕ)
    (ha : assignGo st.centroids (data.zip st.map) = .ok (newMap, false)) :
    loopGo data tol K (fuel + 1) st =
      if tol > 0 ∧
          maxColDispSq (iterateOnce data K st newMap).centroids st.centroids < tol * tol
      then .ok (iterateOnce data K st newMap)
      else loopGo data tol K fuel (iterateOnce data K st newMap) := by
  simp [loopGo, ha, iterateOnce]

/-- Loop unfolding: a failing assignment pass aborts the loop. -/
theorem loopGo_succ_error (data : List Vec) (tol : ℚ) (K fuel : ℕ)
    (st : LoopState) (e : KMeansError)
    (ha : assignGo st.centroids (data.zip st.map) = .error e) :
    loopGo data tol K (fuel + 1) st = .error e := by
  simp [loopGo, ha]

/-- The update-repair-divide phase preserves the centroid count and the
one-assignment-per-point shape. -/
theorem iterateOnce_lengths (data : List Vec) (K : ℕ) (st : LoopState) (newMap : List ℕ)
    (hc : st.centroids.length = K) (hnm : newMap.length = data.length) :
    (iterateOnce data K st newMap).centroids.length = K ∧
    (iterateOnce data K st newMap).map.length = data.length := by
  have hs : (accumulateFrom data newMap st.centroids K).1.length = K := by
    unfold accumulateFrom
    rw [(accumGo_lengths _ _ _).1]
    simp [hc]
  have hcn : (accumulateFrom data newMap st.centroids K).2.length = K := by
    unfold accumulateFrom
    rw [(accumGo_lengths _ _ _).2]
    simp
  have hr := repairFold_lengths data (List.range K)
      ⟨(accumulateFrom data newMap st.centroids K).1,
       (accumulateFrom data newMap st.centroids K).2, newMap⟩
  simp only [iterateOnce, repairPass, divideCentroids] at *
  constructor
  · rw [List.length_zipWith, hr.1, hr.2.1]
    simp only [hs, hcn]
    omega
  · rw [hr.2.2]
    exact hnm

/-- Along any successful run of the iteration loop, the assignment map keeps
one entry per point and the centroid matrix keeps its column count. -/
theorem loopGo_state_inv (data : List Vec) (tol : ℚ) (K : ℕ) :
    ∀ (fuel : ℕ) (st st' : LoopState),
    loopGo data tol K fuel st = .ok st' →
    st.map.length = data.length → st.centroids.length = K →
    st'.map.length = data.length ∧ st'.centroids.length = K := by
  intro fuel
  induction fuel with
  | zero => intro st st' h hm hc; cases h; exact ⟨hm, hc⟩
  | succ n ih =>
    intro st st' h hm hc
    cases ha : assignGo st.centroids (data.zip st.map) with
    | error e => rw [loopGo_succ_error data tol K n st e ha] at h; cases h
    | ok pr =>
      obtain ⟨newMap, unchanged⟩ := pr
      have hnm : newMap.length = data.length := by
        have hl := assignGo_length st.centroids _ _ _ ha
        rw [hl, List.length_zip]
        omega
      cases unchanged with
      | true =>
        rw [loopGo_succ_unchanged data tol K n st newMap ha] at h
        cases h
        exact ⟨hnm, hc⟩
      | false =>
        rw [loopGo_succ_changed data tol K n st newMap ha] at h
        obtain ⟨g1, g2⟩ := iterateOnce_lengths data K st newMap hc hnm
        split at h
        · cases h
          exact ⟨g2, g1⟩
        · exact ih _ _ h g2 g1

/-- Unfolding of a successful `cluster_` run into its loop and bucket parts. -/
theorem cluster__ok_elim (data centroids : List Vec) (maxIter : ℕ) (tol : ℚ)
    (r : KMeansResult) (h : cluster_ data centroids maxIter tol = .ok r) :
    ∃ st, loopGo data tol centroids.length maxIter
        ⟨centroids, List.replicate data.length 0, 0, false⟩ = .ok st ∧
      mkBuckets st.map centroids.length = .ok r.buckets ∧
      r.centroids = st.centroids ∧ r.indexMap = st.map ∧
      r.iterations = st.iter ∧ r.divByZero = st.divByZero := by
  unfold cluster_ at h
  split at h
  · cases h
  · rename_i st hl
    split at h
    · cases h
    · rename_i bs hb
      cases h
      exact ⟨st, hl, hb, rfl, rfl, rfl, rfl⟩

end LengthLemmas

section RunLemmas

/-- A successful loop determines the whole run up to bucket materialization. -/
theorem cluster__eq_map (data centroids : List Vec) (maxIter : ℕ) (tol : ℚ)
    (st : LoopState)
    (hl : loopGo data tol centroids.length maxIter
      ⟨centroids, List.replicate data.length 0, 0, false⟩ = .ok st) :
    cluster_ data centroids maxIter tol =
      Except.map (fun bs => ⟨st.centroids, st.map, bs, st.iter, st.divByZero⟩)
        (mkBuckets st.map centroids.length) := by
  unfold cluster_
  rw [hl]
  cases hb : mkBuckets st.map centroids.length <;> simp [Except.map, hb]

/-- A first pass whose nearest centroid is cluster 0 for every point writes
back the zero-initialized map and reports no change. -/
theorem assignGo_all_zero (centroids data : List Vec)
    (h : ∀ p ∈ data, nearestCluster centroids p = some 0) :
    assignGo centroids (data.zip (List.replicate data.length 0)) =
      .ok (List.replicate data.length 0, true) := by
  induction data with
  | nil => rfl
  | cons p ps ih =>
    have hp := h p (List.mem_cons_self p ps)
    have hih := ih (fun q hq => h q (List.mem_cons_of_mem p hq))
    simp only [List.zip] at hih
    simp only [List.length_cons, List.replicate_succ, List.zip, List.zipWith_cons_cons,
      assignGo, hp, hih]
    rfl

/-- The centroid seeding always emits exactly the requested column count. -/
theorem initGo_length (data : List Vec) :
    ∀ (k : ℕ) (range : List ℕ) (prevSize : ℕ) (draws : List ℕ),
    (initGo data k range prevSize draws).length = k := by
  intro k
  induction k with
  | zero => intro range prevSize draws; rfl
  | succ n ih =>
    intro range prevSize draws
    simp only [initGo, List.length_cons, ih]

/-- The generic argmin invariant of the inner assignment scan: running the
scan over a suffix whose distances are described by `D` extends a valid
partial optimum to a valid optimum over the longer prefix. -/
theorem nearGo_argmin (p : Vec) (D : ℕ → ℚ) :
    ∀ (cs : List Vec) (j : ℕ) (best : Option (ℚ × ℕ)),
    (∀ t, t < cs.length → sqNorm (vsub (cs.getD t []) p) = D (j + t)) →
    (match best with
     | none => j = 0
     | some (bd, bj) =>
       bj < j ∧ bd = D bj ∧ (∀ k, k < j → D bj ≤ D k) ∧ (∀ k, k < bj → D bj < D k)) →
    (match nearGo p cs j best with
     | none => j + cs.length = 0
     | some (bd, bj) =>
       bj < j + cs.length ∧ bd = D bj ∧ (∀ k, k < j + cs.length → D bj ≤ D k) ∧
       (∀ k, k < bj → D bj < D k)) := by
  intro cs
  induction cs with
  | nil =>
    intro j best hD hbest
    cases best with
    | none => simpa [nearGo] using hbest
    | some pr => obtain ⟨bd, bj⟩ := pr; simpa [nearGo] using hbest
  | cons c cs ih =>
    intro j best hD hbest
    have hd0 : sqNorm (vsub c p) = D j := by simpa using hD 0 (by simp)
    have harg : ∀ t, t < cs.length → sqNorm (vsub (cs.getD t []) p) = D (j + 1 + t) := by
      intro t ht
      have := hD (t + 1) (by simpa using ht)
      rw [show j + 1 + t = j + (t + 1) from by omega]
      simpa using this
    cases best with
    | none =>
      have hj : j = 0 := hbest
      subst hj
      simp only [nearGo]
      have hbest' : (match (some (sqNorm (vsub c p), 0) : Option (ℚ × ℕ)) with
          | none => 0 + 1 = 0
          | some (bd, bj) => bj < 0 + 1 ∧ bd = D bj ∧ (∀ k, k < 0 + 1 → D bj ≤ D k) ∧
              (∀ k, k < bj → D bj < D k)) := by
        refine ⟨by omega, by simpa using hd0, ?_, by omega⟩
        intro k hk
        have : k = 0 := by omega
        subst this
        exact le_refl _
      have h2 := ih 1 (some (sqNorm (vsub c p), 0)) (by simpa using harg) hbest'
      cases hres : nearGo p cs 1 (some (sqNorm (vsub c p), 0)) with
      | none => rw [hres] at h2; simp only [List.length_cons]; omega
      | some pr =>
        obtain ⟨bd, bj⟩ := pr
        rw [hres] at h2
        obtain ⟨g1, g2, g3, g4⟩ := h2
        exact ⟨by simp; omega, g2, fun k hk => g3 k (by simp at hk; omega), g4⟩
    | some pr =>
      obtain ⟨bd, bj⟩ := pr
      obtain ⟨b1, b2, b3, b4⟩ := hbest
      simp only [nearGo]
      by_cases hlt : sqNorm (vsub c p) < bd
      · rw [if_pos hlt]
        have hbest' : (match (some (sqNorm (vsub c p), j) : Option (ℚ × ℕ)) with
            | none => j + 1 = 0
            | some (bd', bj') => bj' < j + 1 ∧ bd' = D bj' ∧ (∀ k, k < j + 1 → D bj' ≤ D k) ∧
                (∀ k, k < bj' → D bj' < D k)) := by
          refine ⟨by omega, hd0, ?_, ?_⟩
          · intro k hk
            rcases Nat.lt_succ_iff_lt_or_eq.mp hk with hk' | rfl
            · calc D j = sqNorm (vsub c p) := hd0.symm
                _ ≤ bd := le_of_lt hlt
                _ ≤ D k := b2 ▸ b3 k hk'
            · exact le_refl _
          · intro k hk
            calc D j = sqNorm (vsub c p) := hd0.symm
              _ < bd := hlt
              _ ≤ D k := b2 ▸ b3 k hk
        have h2 := ih (j + 1) (some (sqNorm (vsub c p), j)) harg hbest'
        cases hres : nearGo p cs (j + 1) (some (sqNorm (vsub c p), j)) with
        | none => rw [hres] at h2; simp only [List.length_cons]; omega
        | some pr' =>
          obtain ⟨bd', bj'⟩ := pr'
          rw [hres] at h2
          obtain ⟨g1, g2, g3, g4⟩ := h2
          exact ⟨by simp; omega, g2, fun k hk => g3 k (by simp at hk; omega), g4⟩
      · rw [if_neg hlt]
        have hbest' : (match (some (bd, bj) : Option (ℚ × ℕ)) with
            | none => j + 1 = 0
            | some (bd', bj') => bj' < j + 1 ∧ bd' = D bj' ∧ (∀ k, k < j + 1 → D bj' ≤ D k) ∧
                (∀ k, k < bj' → D bj' < D k)) := by
          refine ⟨by omega, b2, ?_, b4⟩
          intro k hk
          rcases Nat.lt_succ_iff_lt_or_eq.mp hk with hk' | rfl
          · exact b3 k hk'
          · rw [← hd0] at *
            exact b2 ▸ le_of_not_lt hlt
        have h2 := ih (j + 1) (some (bd, bj)) harg hbest'
        cases hres : nearGo p cs (j + 1) (some (bd, bj)) with
        | none => rw [hres] at h2; simp only [List.length_cons]; omega
        | some pr' =>
          obtain ⟨bd', bj'⟩ := pr'
          rw [hres] at h2
          obtain ⟨g1, g2, g3, g4⟩ := h2
          exact ⟨by simp; omega, g2, fun k hk => g3 k (by simp at hk; omega), g4⟩

/-- The nearest-centroid search returns an answer whenever a centroid exists,
and that answer is the argmin with ties broken to the lowest index. -/
theorem nearestCluster_spec (centroids : List Vec) (p : Vec) :
    (centroids ≠ [] → (nearestCluster centroids p).isSome) ∧
    (∀ j, nearestCluster centroids p = some j →
      j < centroids.length ∧
      (∀ k, k < centroids.length →
        sqNorm (vsub (centroids.getD j []) p) ≤ sqNorm (vsub (centroids.getD k []) p)) ∧
      (∀ k, k < j →
        sqNorm (vsub (centroids.getD j []) p) < sqNorm (vsub (centroids.getD k []) p))) := by
  have h := nearGo_argmin p (fun k => sqNorm (vsub (centroids.getD k []) p)) centroids 0 none
      (fun t ht => by simp) rfl
  constructor
  · intro hne
    cases hres : nearGo p centroids 0 none with
    | none =>
      rw [hres] at h
      simp only [Nat.zero_add] at h
      exact absurd (List.length_eq_zero.mp h) hne
    | some pr => simp [nearestCluster, hres]
  · intro j hj
    unfold nearestCluster at hj
    cases hres : nearGo p centroids 0 none with
    | none => rw [hres] at hj; cases hj
    | some pr =>
      obtain ⟨bd, bj⟩ := pr
      rw [hres] at hj h
      obtain rfl : bj = j := by simpa using hj
      obtain ⟨g1, g2, g3, g4⟩ := h
      exact ⟨by simpa using g1, fun k hk => g3 k (by omega), fun k hk => g4 k hk⟩

/-- What the assignment pass writes and when it reports no change: entries
are the nearest-centroid answers, and the unchanged flag holds exactly when
every entry equals its previous value. -/
theorem assignGo_spec (centroids : List Vec) :
    ∀ (L : List (Vec × ℕ)) (nm : List ℕ) (unch : Bool),
    assignGo centroids L = .ok (nm, unch) →
    nm.length = L.length ∧
    (∀ k, k < L.length → nearestCluster centroids (L.getD k ([], 0)).1 = some (nm.getD k 0)) ∧
    (unch = true ↔ ∀ k, k < L.length → nm.getD k 0 = (L.getD k ([], 0)).2) := by
  intro L
  induction L with
  | nil =>
    intro nm unch h
    cases h
    exact ⟨rfl, fun k hk => absurd hk (Nat.not_lt_zero k), by simp⟩
  | cons pm rest ih =>
    intro nm unch h
    obtain ⟨p, m⟩ := pm
    simp only [assignGo] at h
    cases hn : nearestCluster centroids p with
    | none => rw [hn] at h; cases h
    | some j =>
      rw [hn] at h
      cases hr : assignGo centroids rest with
      | error e => rw [hr] at h; cases h
      | ok pr =>
        obtain ⟨ms, u⟩ := pr
        rw [hr] at h
        cases h
        obtain ⟨ihl, ihn, ihu⟩ := ih ms u hr
        refine ⟨by simpa using ihl, ?_, ?_⟩
        · intro k hk
          cases k with
          | zero => simpa using hn
          | succ t => simpa using ihn t (by simpa using hk)
        · rw [Bool.and_eq_true]
          constructor
          · rintro ⟨hu, hjm⟩ k hk
            cases k with
            | zero => simp only [beq_iff_eq] at hjm; simpa using hjm
            | succ t => simpa using (ihu.mp hu) t (by simpa using hk)
          · intro hall
            have h0 : j = m := by simpa using hall 0 (by simp)
            refine ⟨ihu.mpr ?_, by simpa using h0⟩
            intro k hk
            simpa using hall (k + 1) (by simpa using hk)

end RunLemmas

section RepairLemmas

/-- The accumulation pass counts exactly the occurrences of each in-range
cluster index among the assignments. -/
theorem accumGo_counts :
    ∀ (L : List (Vec × ℕ)) (sums : List Vec) (counts : List ℕ) (j : ℕ),
    j < counts.length →
    (accumGo L sums counts).2.getD j 0 = counts.getD j 0 + (L.map Prod.snd).count j := by
  intro L
  induction L with
  | nil => intro sums counts j hj; simp [accumGo]
  | cons pm rest ih =>
    intro sums counts j hj
    obtain ⟨p, m⟩ := pm
    simp only [accumGo]
    rw [ih _ _ j (by simpa using hj)]
    by_cases hmj : m = j
    · subst hmj
      rw [getD_set_self _ _ hj]
      simp [List.count_cons]
      omega
    · rw [getD_set_ne _ _ hmj]
      simp [List.count_cons, hmj]

/-- A cluster to which no scanned pair is assigned keeps its initial sum
through the accumulation pass. -/
theorem accumGo_sums_untouched :
    ∀ (L : List (Vec × ℕ)) (sums : List Vec) (counts : List ℕ) (c : ℕ),
    (L.map Prod.snd).count c = 0 →
    (accumGo L sums counts).1.getD c [] = sums.getD c [] := by
  intro L
  induction L with
  | nil => intro sums counts c _; rfl
  | cons pm rest ih =>
    intro sums counts c h
    obtain ⟨p, m⟩ := pm
    simp only [List.map_cons, List.count_cons] at h
    have hmc : m ≠ c := by
      intro hmc
      simp [hmc] at h
    have hrest : (rest.map Prod.snd).count c = 0 := by
      simp [hmc] at h
      exact h
    simp only [accumGo]
    rw [ih _ _ c hrest, getD_set_ne _ _ hmc]

/-- When the farthest-point scan starting from the empty accumulator returns
an index, that index names a scanned pair assigned to the target cluster. -/
theorem farthestGo_found (t : ℕ) (oc : Vec) :
    ∀ (L : List (Vec × ℕ)) (j0 : ℕ) (b : Option (ℚ × ℕ)) (d : ℚ) (js : ℕ),
    farthestGo t oc L j0 b = some (d, js) →
    (∃ bd, b = some (bd, js)) ∨
    (∃ k, k < L.length ∧ js = j0 + k ∧ (L.getD k ([], 0)).2 = t) := by
  intro L
  induction L with
  | nil => intro j0 b d js h; left; exact ⟨d, h⟩
  | cons pm rest ih =>
    intro j0 b d js h
    obtain ⟨p, m⟩ := pm
    simp only [farthestGo] at h
    by_cases hmt : (m == t) = true
    · rw [if_pos hmt] at h
      have hmt' : m = t := by simpa using hmt
      cases b with
      | none =>
        rcases ih (j0 + 1) (some (sqNorm (vsub oc p), j0)) d js h with ⟨bd, hb⟩ | ⟨k, hk, hjs, hkt⟩
        · have : j0 = js := by
            have := congrArg (fun o => Option.map Prod.snd o) hb
            simpa using this
          right
          exact ⟨0, by simp, by omega, by simpa using hmt'⟩
        · right
          exact ⟨k + 1, by simpa using hk, by omega, by simpa using hkt⟩
      | some pr =>
        obtain ⟨bd0, bj0⟩ := pr
        have h' : (if sqNorm (vsub oc p) > bd0 then
              farthestGo t oc rest (j0 + 1) (some (sqNorm (vsub oc p), j0))
            else farthestGo t oc rest (j0 + 1) (some (bd0, bj0))) = some (d, js) := h
        by_cases hgt : sqNorm (vsub oc p) > bd0
        · rw [if_pos hgt] at h'
          rcases ih (j0 + 1) (some (sqNorm (vsub oc p), j0)) d js h' with ⟨bd, hb⟩ | ⟨k, hk, hjs, hkt⟩
          · have : j0 = js := by
              have := congrArg (fun o => Option.map Prod.snd o) hb
              simpa using this
            right
            exact ⟨0, by simp, by omega, by simpa using hmt'⟩
          · right
            exact ⟨k + 1, by simpa using hk, by omega, by simpa using hkt⟩
        · rw [if_neg hgt] at h'
          rcases ih (j0 + 1) (some (bd0, bj0)) d js h' with ⟨bd, hb⟩ | ⟨k, hk, hjs, hkt⟩
          · left
            have : bj0 = js := by
              have := congrArg (fun o => Option.map Prod.snd o) hb
              simpa using this
            exact ⟨bd0, by rw [this]⟩
          · right
            exact ⟨k + 1, by simpa using hk, by omega, by simpa using hkt⟩
    · rw [if_neg hmt] at h
      rcases ih (j0 + 1) b d js h with hb | ⟨k, hk, hjs, hkt⟩
      · left; exact hb
      · right
        exact ⟨k + 1, by simpa using hk, by omega, by simpa using hkt⟩

/-- The farthest-point scan never returns the empty accumulator once a pair
assigned to the target cluster has been scanned. -/
theorem farthestGo_none (t : ℕ) (oc : Vec) :
    ∀ (L : List (Vec × ℕ)) (j0 : ℕ) (b : Option (ℚ × ℕ)),
    farthestGo t oc L j0 b = none →
    b = none ∧ ∀ k, k < L.length → (L.getD k ([], 0)).2 ≠ t := by
  intro L
  induction L with
  | nil =>
    intro j0 b h
    exact ⟨h, fun k hk => absurd hk (Nat.not_lt_zero k)⟩
  | cons pm rest ih =>
    intro j0 b h
    obtain ⟨p, m⟩ := pm
    simp only [farthestGo] at h
    by_cases hmt : (m == t) = true
    · rw [if_pos hmt] at h
      cases b with
      | none =>
        obtain ⟨habs, _⟩ := ih (j0 + 1) (some (sqNorm (vsub oc p), j0)) h
        cases habs
      | some pr =>
        obtain ⟨bd0, bj0⟩ := pr
        have h' : (if sqNorm (vsub oc p) > bd0 then
              farthestGo t oc rest (j0 + 1) (some (sqNorm (vsub oc p), j0))
            else farthestGo t oc rest (j0 + 1) (some (bd0, bj0))) = none := h
        by_cases hgt : sqNorm (vsub oc p) > bd0
        · rw [if_pos hgt] at h'
          obtain ⟨habs, _⟩ := ih (j0 + 1) (some (sqNorm (vsub oc p), j0)) h'
          cases habs
        · rw [if_neg hgt] at h'
          obtain ⟨habs, _⟩ := ih (j0 + 1) (some (bd0, bj0)) h'
          cases habs
    · rw [if_neg hmt] at h
      obtain ⟨hb, hrest⟩ := ih (j0 + 1) b h
      refine ⟨hb, ?_⟩
      intro k hk
      cases k with
      | zero =>
        simpa using fun hc => hmt (by simpa using hc)
      | succ u =>
        simpa using hrest u (by simpa using hk)

/-- If no scanned pair is assigned to the target cluster, the scan returns
the empty accumulator. -/
theorem farthestGo_no_match (t : ℕ) (oc : Vec) :
    ∀ (L : List (Vec × ℕ)) (j0 : ℕ),
    (∀ k, k < L.length → (L.getD k ([], 0)).2 ≠ t) →
    farthestGo t oc L j0 none = none := by
  intro L
  induction L with
  | nil => intro j0 _; rfl
  | cons pm rest ih =>
    intro j0 hall
    obtain ⟨p, m⟩ := pm
    have hm : m ≠ t := by simpa using hall 0 (by simp)
    simp only [farthestGo]
    rw [if_neg (by simpa using hm)]
    exact ih (j0 + 1) (fun k hk => by simpa using hall (k + 1) (by simpa using hk))

/-- The largest-cluster search returns an in-range index. -/
theorem largestCluster_lt (counts : List ℕ) (h : 0 < counts.length) :
    largestCluster counts < counts.length := by
  unfold largestCluster
  have hgen : ∀ (L : List ℕ) (acc : ℕ), acc < counts.length →
      (∀ x ∈ L, x < counts.length) →
      L.foldl (fun mx j => if counts.getD j 0 > counts.getD mx 0 then j else mx) acc
        < counts.length := by
    intro L
    induction L with
    | nil => intro acc hacc _; exact hacc
    | cons x xs ih =>
      intro acc hacc hall
      simp only [List.foldl_cons]
      apply ih
      · split
        · exact hall x (by simp)
        · exact hacc
      · intro y hy
        exact hall y (by simp [hy])
  apply hgen _ _ h
  intro x hx
  have : x ∈ List.range counts.length := List.drop_subset _ _ hx
  simpa using this

/-- One repair step either leaves the state unchanged or performs the move
described by the source: the farthest point `jstar` of the largest cluster
is reassigned to `i`, its coordinates are subtracted from the source sum
(and added nowhere), the source count decreases and the destination count
increases. -/
theorem repairOne_elim (data : List Vec) (st : AccState) (i : ℕ) :
    repairOne data st i = st ∨
    (st.counts.getD i 0 = 0 ∧ ∃ d jstar,
      farthestGo (largestCluster st.counts)
        (smul (1 / (st.counts.getD (largestCluster st.counts) 0 : ℚ))
          (st.sums.getD (largestCluster st.counts) []))
        (data.zip st.map) 0 none = some (d, jstar) ∧
      (repairOne data st i).sums =
        st.sums.set (largestCluster st.counts)
          (vsub (st.sums.getD (largestCluster st.counts) []) (data.getD jstar [])) ∧
      (repairOne data st i).counts =
        (st.counts.set (largestCluster st.counts)
           (st.counts.getD (largestCluster st.counts) 0 - 1)).set i
          ((st.counts.set (largestCluster st.counts)
             (st.counts.getD (largestCluster st.counts) 0 - 1)).getD i 0 + 1) ∧
      (repairOne data st i).map = st.map.set jstar i) := by
  by_cases h0 : st.counts.getD i 0 ≠ 0
  · left
    simp only [repairOne]
    rw [if_pos h0]
  · cases hf : farthestGo (largestCluster st.counts)
        (smul (1 / (st.counts.getD (largestCluster st.counts) 0 : ℚ))
          (st.sums.getD (largestCluster st.counts) []))
        (data.zip st.map) 0 none with
    | none =>
      left
      simp only [repairOne]
      rw [if_neg h0, hf]
    | some pr =>
      obtain ⟨d, jstar⟩ := pr
      right
      have hone : repairOne data st i =
          ⟨st.sums.set (largestCluster st.counts)
              (vsub (st.sums.getD (largestCluster st.counts) []) (data.getD jstar [])),
           (st.counts.set (largestCluster st.counts)
              (st.counts.getD (largestCluster st.counts) 0 - 1)).set i
             ((st.counts.set (largestCluster st.counts)
                (st.counts.getD (largestCluster st.counts) 0 - 1)).getD i 0 + 1),
           st.map.set jstar i⟩ := by
        simp only [repairOne]
        rw [if_neg h0, hf]
      exact ⟨by omega, d, jstar, rfl, by rw [hone], by rw [hone], by rw [hone]⟩

/-- When the scan of a repair step finds a point, that point is a real point
assigned to the largest cluster, the largest cluster is in range, and its
count is positive. -/
theorem repairOne_move_facts (data : List Vec) (K : ℕ) (st : AccState)
    (hinv : histInv data K st) (d : ℚ) (jstar : ℕ)
    (hf : farthestGo (largestCluster st.counts)
        (smul (1 / (st.counts.getD (largestCluster st.counts) 0 : ℚ))
          (st.sums.getD (largestCluster st.counts) []))
        (data.zip st.map) 0 none = some (d, jstar)) :
    jstar < st.map.length ∧ st.map.getD jstar 0 = largestCluster st.counts ∧
    largestCluster st.counts < K ∧ 1 ≤ st.counts.getD (largestCluster st.counts) 0 := by
  obtain ⟨hml, hcl, hsl, hent, hhist⟩ := hinv
  rcases farthestGo_found _ _ _ _ _ _ _ hf with ⟨bd, hb⟩ | ⟨k, hk, hjs, hkt⟩
  · cases hb
  · rw [List.length_zip] at hk
    have hkd : k < data.length := by omega
    have hkm : k < st.map.length := by omega
    rw [getD_zip ([] : Vec) 0 hkd hkm] at hkt
    simp only at hkt
    have hjk : jstar = k := by omega
    subst hjk
    have hmem : st.map.getD jstar 0 ∈ st.map := getD_mem 0 hkm
    rw [hkt] at hmem
    have htK : largestCluster st.counts < K := hent _ hmem
    refine ⟨hkm, hkt, htK, ?_⟩
    rw [hhist _ htK]
    exact List.count_pos_iff.mpr hmem

/-- One repair step preserves the histogram invariant. -/
theorem repairOne_histInv (data : List Vec) (K : ℕ) (st : AccState) (i : ℕ)
    (hiK : i < K) (hinv : histInv data K st) :
    histInv data K (repairOne data st i) := by
  rcases repairOne_elim data st i with heq | ⟨h0, d, jstar, hf, hseq, hceq, hmeq⟩
  · rw [heq]; exact hinv
  · obtain ⟨hjl, hjt, htK, hcnt⟩ := repairOne_move_facts data K st hinv d jstar hf
    obtain ⟨hml, hcl, hsl, hent, hhist⟩ := hinv
    have hit : i ≠ largestCluster st.counts := by
      intro hit
      rw [← hit] at hcnt
      omega
    refine ⟨?_, ?_, ?_, ?_, ?_⟩
    · rw [hmeq]
      simpa using hml
    · rw [hceq]
      simpa using hcl
    · rw [hseq]
      simpa using hsl
    · intro e he
      rw [hmeq] at he
      rcases List.mem_or_eq_of_mem_set he with he' | rfl
      · exact hent e he'
      · exact hiK
    · intro j hj
      rw [hceq, hmeq]
      have hcount := count_set_add st.map jstar i j hjl
      rw [hjt] at hcount
      by_cases hji : j = i
      · subst hji
        rw [getD_set_self _ _ (by rw [List.length_set, hcl]; omega)]
        rw [getD_set_ne _ _ (fun h => hit h.symm)]
        rw [if_neg (fun h => hit h.symm), if_pos rfl] at hcount
        rw [hhist _ hj] at h0 ⊢
        omega
      · by_cases hjt' : j = largestCluster st.counts
        · subst hjt'
          rw [getD_set_ne _ _ (fun h => hji h.symm)]
          rw [getD_set_self _ _ (by rw [hcl]; omega)]
          rw [if_pos rfl, if_neg (fun h => hji h.symm)] at hcount
          rw [hhist _ hj] at hcnt ⊢
          omega
        · rw [getD_set_ne _ _ (fun h => hji h.symm)]
          rw [getD_set_ne _ _ (fun h => hjt' h.symm)]
          rw [if_neg (fun h => hjt' h.symm), if_neg (fun h => hji h.symm)] at hcount
          rw [hhist _ hj]
          omega

/-- Folding repair steps over indices other than `c` cannot touch an empty
cluster `c`: its count stays zero and its sum is untouched. -/
theorem repairFold_zero_cluster (data : List Vec) (K : ℕ) (c : ℕ) :
    ∀ (L : List ℕ) (st : AccState), (∀ e ∈ L, e < K) → c ∉ L →
    histInv data K st → st.counts.getD c 0 = 0 →
    histInv data K (L.foldl (repairOne data) st) ∧
    (L.foldl (repairOne data) st).counts.getD c 0 = 0 ∧
    (L.foldl (repairOne data) st).sums.getD c [] = st.sums.getD c [] := by
  intro L
  induction L with
  | nil => intro st _ _ hinv hc; exact ⟨hinv, hc, rfl⟩
  | cons i rest ih =>
    intro st hall hnc hinv hc
    have hiK : i < K := hall i (by simp)
    have hinv' := repairOne_histInv data K st i hiK hinv
    have hpres : (repairOne data st i).counts.getD c 0 = 0 ∧
        (repairOne data st i).sums.getD c [] = st.sums.getD c [] := by
      rcases repairOne_elim data st i with heq | ⟨h0, d, jstar, hf, hseq, hceq, hmeq⟩
      · rw [heq]; exact ⟨hc, rfl⟩
      · obtain ⟨hjl, hjt, htK, hcnt⟩ := repairOne_move_facts data K st hinv d jstar hf
        have htc : largestCluster st.counts ≠ c := by
          intro h
          rw [h] at hcnt
          omega
        have hic : i ≠ c := fun h => hnc (h ▸ List.mem_cons_self i rest)
        constructor
        · rw [hceq, getD_set_ne _ _ hic, getD_set_ne _ _ htc]
          exact hc
        · rw [hseq, getD_set_ne _ _ htc]
    simp only [List.foldl_cons]
    obtain ⟨hp1, hp2⟩ := hpres
    obtain ⟨g1, g2, g3⟩ := ih (repairOne data st i)
      (fun e he => hall e (by simp [he])) (fun h => hnc (by simp [h])) hinv' hp1
    exact ⟨g1, g2, g3.trans hp2⟩

/-- Folding repair steps over indices other than `c` can only drain a
cluster `c` holding at most one point; as long as its count stays nonzero,
neither its count nor its sum changes. -/
theorem repairFold_lone_cluster (data : List Vec) (K : ℕ) (c : ℕ) :
    ∀ (L : List ℕ) (st : AccState), (∀ e ∈ L, e < K) → c ∉ L →
    histInv data K st → st.counts.getD c 0 ≤ 1 →
    histInv data K (L.foldl (repairOne data) st) ∧
    (L.foldl (repairOne data) st).counts.getD c 0 ≤ 1 ∧
    ((L.foldl (repairOne data) st).counts.getD c 0 ≠ 0 →
      (L.foldl (repairOne data) st).counts.getD c 0 = st.counts.getD c 0 ∧
      (L.foldl (repairOne data) st).sums.getD c [] = st.sums.getD c []) := by
  intro L
  induction L with
  | nil => intro st _ _ hinv hc; exact ⟨hinv, hc, fun _ => ⟨rfl, rfl⟩⟩
  | cons i rest ih =>
    intro st hall hnc hinv hc
    have hiK : i < K := hall i (by simp)
    have hinv' := repairOne_histInv data K st i hiK hinv
    have hic : i ≠ c := fun h => hnc (h ▸ List.mem_cons_self i rest)
    simp only [List.foldl_cons]
    rcases repairOne_elim data st i with heq | ⟨h0, d, jstar, hf, hseq, hceq, hmeq⟩
    · rw [heq]
      exact ih st (fun e he => hall e (by simp [he])) (fun h => hnc (by simp [h])) hinv hc
    · obtain ⟨hjl, hjt, htK, hcnt⟩ := repairOne_move_facts data K st hinv d jstar hf
      by_cases htc : largestCluster st.counts = c
      · -- the step drains c (count 1 -> 0); afterwards c stays at zero
        have hc1 : st.counts.getD c 0 = 1 := by
          rw [htc] at hcnt
          omega
        have hc0 : (repairOne data st i).counts.getD c 0 = 0 := by
          rw [hceq, getD_set_ne _ _ hic, htc]
          rw [getD_set_self _ _ (by rw [hinv.2.1]; exact htc ▸ htK)]
          omega
        obtain ⟨g1, g2, _⟩ := repairFold_zero_cluster data K c rest (repairOne data st i)
          (fun e he => hall e (by simp [he])) (fun h => hnc (by simp [h])) hinv' hc0
        refine ⟨g1, by omega, ?_⟩
        intro hne
        exact absurd g2 hne
      · -- c untouched by this step
        have hp1 : (repairOne data st i).counts.getD c 0 = st.counts.getD c 0 := by
          rw [hceq, getD_set_ne _ _ hic, getD_set_ne _ _ htc]
        have hp2 : (repairOne data st i).sums.getD c [] = st.sums.getD c [] := by
          rw [hseq, getD_set_ne _ _ htc]
        obtain ⟨g1, g2, g3⟩ := ih (repairOne data st i)
          (fun e he => hall e (by simp [he])) (fun h => hnc (by simp [h])) hinv'
          (by rw [hp1]; exact hc)
        refine ⟨g1, g2, ?_⟩
        intro hne
        obtain ⟨e1, e2⟩ := g3 hne
        exact ⟨e1.trans hp1, e2.trans hp2⟩

/-- Splitting the repair pass around a cluster `c` that is empty after
accumulation: if `c` still holds its point when the pass ends, it holds
exactly the one relocated point and its running sum was never touched. -/
theorem repairPass_repaired_cluster (data : List Vec) (K : ℕ) (st0 : AccState) (c : ℕ)
    (hcK : c < K) (hinv0 : histInv data K st0) (hc0 : st0.counts.getD c 0 = 0)
    (hne : (repairPass data K st0).counts.getD c 0 ≠ 0) :
    histInv data K (repairPass data K st0) ∧
    (repairPass data K st0).counts.getD c 0 = 1 ∧
    (repairPass data K st0).sums.getD c [] = st0.sums.getD c [] := by
  have hsplit : List.range K = List.range' 0 c ++ c :: List.range' (c + 1) (K - c - 1) := by
    rw [List.range_eq_range']
    rw [show K = K - c + c from by omega, ← List.range'_append_1 0 c (K - c)]
    rw [show K - c = (K - c - 1) + 1 from by omega, List.range'_succ]
    simp
  have hpreE : ∀ e ∈ List.range' 0 c, e < K := by
    intro e he
    have := List.mem_range'.mp he
    omega
  have hpreN : c ∉ List.range' 0 c := by
    intro hmem
    have := List.mem_range'.mp hmem
    omega
  have hsufE : ∀ e ∈ List.range' (c + 1) (K - c - 1), e < K := by
    intro e he
    have := List.mem_range'.mp he
    omega
  have hsufN : c ∉ List.range' (c + 1) (K - c - 1) := by
    intro hmem
    have := List.mem_range'.mp hmem
    omega
  have hfold : repairPass data K st0 =
      (List.range' (c + 1) (K - c - 1)).foldl (repairOne data)
        (repairOne data ((List.range' 0 c).foldl (repairOne data) st0) c) := by
    unfold repairPass
    rw [hsplit, List.foldl_append, List.foldl_cons]
  obtain ⟨hinv1, hc1, hs1⟩ :=
    repairFold_zero_cluster data K c (List.range' 0 c) st0 hpreE hpreN hinv0 hc0
  rcases repairOne_elim data ((List.range' 0 c).foldl (repairOne data) st0) c with
    heq | ⟨h0', d, jstar, hf, hseq, hceq, hmeq⟩
  · obtain ⟨_, g2, _⟩ := repairFold_zero_cluster data K c (List.range' (c + 1) (K - c - 1))
      ((List.range' 0 c).foldl (repairOne data) st0) hsufE hsufN hinv1 hc1
    rw [hfold, heq] at hne
    exact absurd g2 hne
  · obtain ⟨hjl, hjt, htK, hcnt⟩ :=
      repairOne_move_facts data K ((List.range' 0 c).foldl (repairOne data) st0) hinv1 d jstar hf
    have htc : largestCluster ((List.range' 0 c).foldl (repairOne data) st0).counts ≠ c := by
      intro h
      rw [h, hc1] at hcnt
      omega
    have hinv2 := repairOne_histInv data K ((List.range' 0 c).foldl (repairOne data) st0) c
      hcK hinv1
    have hc2 : (repairOne data ((List.range' 0 c).foldl (repairOne data) st0) c).counts.getD c 0
        = 1 := by
      rw [hceq, getD_set_self _ _ (by rw [List.length_set, hinv1.2.1]; omega)]
      rw [getD_set_ne _ _ htc, hc1]
    have hs2 : (repairOne data ((List.range' 0 c).foldl (repairOne data) st0) c).sums.getD c []
        = ((List.range' 0 c).foldl (repairOne data) st0).sums.getD c [] := by
      rw [hseq, getD_set_ne _ _ htc]
    obtain ⟨g1, g2, g3⟩ := repairFold_lone_cluster data K c (List.range' (c + 1) (K - c - 1))
      (repairOne data ((List.range' 0 c).foldl (repairOne data) st0) c) hsufE hsufN hinv2
      (by rw [hc2])
    rw [hfold] at hne ⊢
    obtain ⟨e1, e2⟩ := g3 hne
    exact ⟨g1, by rw [e1, hc2], by rw [e2, hs2, hs1]⟩

end RepairLemmas

section Claims

/-- C2: the pre-loop assignment map is value-initialized to all zeros by the
resize; for every input whose first assignment pass sends every point to
cluster 0, the pass reports no change, the loop exits immediately, the
iteration count is 0, the update and repair phases never run, and the
returned centroids are exactly the initial centroids. -/
theorem c2_zero_init_map_premature_convergence (data centroids : List Vec)
    (maxIter : ℕ) (tol : ℚ)
    (h : ∀ p ∈ data, nearestCluster centroids p = some 0) :
    cluster_ data centroids maxIter tol =
      Except.map
        (fun bs => ⟨centroids, List.replicate data.length 0, bs, 0, false⟩)
        (mkBuckets (List.replicate data.length 0) centroids.length) := by
  refine cluster__eq_map data centroids maxIter tol
    ⟨centroids, List.replicate data.length 0, 0, false⟩ ?_
  cases maxIter with
  | zero => rfl
  | succ n =>
    exact loopGo_succ_unchanged data tol centroids.length n _ _
      (assignGo_all_zero centroids data h)

/-- Witness for C2: one point at (1,1) with centroids (0,0) and (10,10) is
nearest to cluster 0, so the run ends after the first pass with the initial
centroids and a zero iteration count. -/
theorem c2_witness :
    cluster_ [[1,1]] [[0,0],[10,10]] 5 0 =
      Except.map
        (fun bs => (⟨[[0,0],[10,10]], List.replicate 1 0, bs, 0, false⟩ : KMeansResult))
        (mkBuckets (List.replicate 1 0) 2) :=
  c2_zero_init_map_premature_convergence [[1,1]] [[0,0],[10,10]] 5 0
    (by
      intro p hp
      rcases List.mem_singleton.mp hp with rfl
      with_unfolding_all rfl)

/-- C1 evaluation: on the spec's empty-cluster-trigger input the code exits
after the first pass with 0 iterations and bucket sizes 3 and 0; the repair
never runs, contradicting the expected sizes 2 and 1. -/
theorem c1_trigger_run_skips_repair :
    cluster_ [[0,0],[0,0],[0,0]] [[0,0],[10,10]] 1 (1/1000000) =
      .ok ⟨[[0,0],[10,10]], [0,0,0], [[0,1,2],[]], 0, false⟩ := by
  with_unfolding_all rfl

/-- C4 evaluation: requesting 0 clusters on one point is not rejected with
any invalid-argument failure; the assignment pass reads the uninitialized
nearest-cluster index (undefined behaviour in the source). -/
theorem c4_k_zero_reads_uninitialized :
    clusterWithK [[0,0]] 0 [] 1 0 = .error .uninitializedRead := by
  with_unfolding_all rfl

/-- C5 evaluation: with no points the run returns normally (iteration count
0, no failure of any kind), and with one point and two explicit centroids
the final per-cluster division executes with a zero count instead of any
invariant-violation failure. -/
theorem c5_no_failure_and_zero_count_division :
    (cluster_ ([] : List Vec) [[5,5]] 1 0 = .ok ⟨[[5,5]], [], [[]], 0, false⟩) ∧
    ((cluster_ [[0,0]] [[5,5],[0,0]] 1 0).map (fun r => r.divByZero) = .ok true) :=
  ⟨by with_unfolding_all rfl, by with_unfolding_all rfl⟩

/-- C9: whenever an assignment pass reports no change, the loop returns at
once with the centroids it entered the pass with, the freshly written map,
and an unchanged iteration counter; no update, repair or division runs. -/
theorem c9_unchanged_pass_is_frame (data : List Vec) (tol : ℚ) (K fuel : ℕ)
    (st : LoopState) (nm : List ℕ)
    (h : assignGo st.centroids (data.zip st.map) = .ok (nm, true)) :
    loopGo data tol K (fuel + 1) st = .ok ⟨st.centroids, nm, st.iter, st.divByZero⟩ :=
  loopGo_succ_unchanged data tol K fuel st nm h

/-- Witness for C9: a single point already assigned to its nearest centroid
leaves the state unchanged. -/
theorem c9_witness :
    loopGo [[0,0]] 0 1 1 ⟨[[0,0]], [0], 0, false⟩ = .ok ⟨[[0,0]], [0], 0, false⟩ :=
  c9_unchanged_pass_is_frame [[0,0]] 0 1 0 ⟨[[0,0]], [0], 0, false⟩ [0]
    (by with_unfolding_all rfl)

/-- C10: with `max_iter = 0` the loop body never executes, the run completes
without failure, the iteration count is 0, and bucket materialization runs
on the zero-initialized map, placing every point index into bucket 0 (the
claim presupposes at least one centroid, so that bucket 0 exists). -/
theorem c10_max_iter_zero_completes (data centroids : List Vec) (tol : ℚ)
    (h : centroids ≠ []) :
    cluster_ data centroids 0 tol =
      .ok ⟨centroids, List.replicate data.length 0,
        List.range data.length :: List.replicate (centroids.length - 1) [], 0, false⟩ := by
  obtain ⟨c, cs, rfl⟩ := List.exists_cons_of_ne_nil h
  have hb : mkBuckets (List.replicate data.length 0) (c :: cs).length =
      .ok (List.range data.length :: List.replicate cs.length []) := by
    unfold mkBuckets
    rw [show List.replicate (c :: cs).length ([] : List ℕ)
        = [] :: List.replicate cs.length [] from by simp [List.replicate_succ]]
    rw [mkBucketsGo_zero, List.range_eq_range']
    simp
  rw [cluster__eq_map data (c :: cs) 0 tol ⟨c :: cs, List.replicate data.length 0, 0, false⟩ rfl]
  rw [hb]
  simp [Except.map]

/-- Witness for C10: two points, one centroid, `max_iter = 0`. -/
theorem c10_witness :
    cluster_ [[1,1],[2,2]] [[0,0]] 0 0 = .ok ⟨[[0,0]], [0,0], [[0,1]], 0, false⟩ := by
  have := c10_max_iter_zero_completes [[1,1],[2,2]] [[0,0]] 0 (by simp)
  simpa using this

/-- Counterexample for C6: with one point and two explicit centroids the run
uses 2 clusters (2 centroids, 2 buckets), exceeding the number of points 1,
so the clamp does not apply to explicit initial centroids. -/
theorem c6_counterexample_explicit_exceeds_n :
    ((cluster_ [[0,0]] [[5,5],[0,0]] 1 0).map
      (fun r => (r.centroids.length, r.buckets.length)) = .ok (2, 2)) ∧ 1 < 2 :=
  ⟨by with_unfolding_all rfl, by omega⟩

/-- Counterexample for C8: the same run performs one iteration on one point
yet materializes 2 buckets, while the claimed count min(K, N) is 1. -/
theorem c8_counterexample_buckets_ne_min :
    ((cluster_ [[0,0]] [[5,5],[0,0]] 1 0).map
      (fun r => (r.buckets.length, r.iterations)) = .ok (2, 1)) ∧ (2 : ℕ) ≠ min 2 1 :=
  ⟨by with_unfolding_all rfl, by decide⟩

/-- C6 (amended): the silent clamp of a requested cluster count K to the
number of points N applies to the count-requesting entry point, whose run
uses exactly min(K, N) centroids and buckets for every random draw sequence;
supplying explicit initial centroids bypasses the clamp (see the
counterexample), so the bound K ≤ N does not hold for that configuration. -/
theorem c6_clamp_applies_to_requested_count :
    (∀ (data : List Vec) (K : ℕ) (draws : List ℕ),
      (initCentroids data K draws).length = min K data.length) ∧
    (∀ (data : List Vec) (K : ℕ) (draws : List ℕ) (maxIter : ℕ) (tol : ℚ) (r : KMeansResult),
      clusterWithK data K draws maxIter tol = .ok r →
      r.centroids.length = min K data.length ∧ r.buckets.length = min K data.length) := by
  have hinit : ∀ (data : List Vec) (K : ℕ) (draws : List ℕ),
      (initCentroids data K draws).length = min K data.length := by
    intro data K draws
    unfold initCentroids
    rw [initGo_length]
    split <;> omega
  refine ⟨hinit, ?_⟩
  intro data K draws maxIter tol r h
  unfold clusterWithK at h
  obtain ⟨st, hl, hb, hc, hm, hi, hd⟩ := cluster__ok_elim _ _ _ _ _ h
  have hinv := loopGo_state_inv data tol _ _ _ st hl (by simp) rfl
  unfold mkBuckets at hb
  have hbl : r.buckets.length = (initCentroids data K draws).length :=
    (mkBucketsGo_ok_length _ _ _ _ hb).trans (by simp)
  exact ⟨by rw [hc, hinv.2, hinit], by rw [hbl, hinit]⟩

/-- Witness for C6: requesting 1000 clusters on 5 points yields exactly 5
centroids and 5 buckets. -/
theorem c6_witness :
    clusterWithK [[0,0],[1,0],[2,0],[3,0],[4,0]] 1000 [0,0,0,0,0] 1 0 =
      .ok ⟨[[0,0],[4,0],[3,0],[2,0],[1,0]], [0,4,3,2,1],
        [[0],[4],[3],[2],[1]], 1, false⟩ ∧
    (5 : ℕ) = min 1000 5 ∧
    ∀ (r : KMeansResult),
      clusterWithK [[0,0],[1,0],[2,0],[3,0],[4,0]] 1000 [0,0,0,0,0] 1 0 = .ok r →
      r.centroids.length = min 1000 5 ∧ r.buckets.length = min 1000 5 := by
  refine ⟨by with_unfolding_all rfl, by decide, ?_⟩
  intro r h
  exact c6_clamp_applies_to_requested_count.2
    [[0,0],[1,0],[2,0],[3,0],[4,0]] 1000 [0,0,0,0,0] 1 0 r h

/-- C7: in the brute-force assignment pass, a nearest centroid exists
whenever there is at least one centroid; each written entry is the index
minimizing the squared distance, with ties broken to the lowest index in the
left-to-right scan; and the pass reports a change exactly when some point's
new assignment differs from its previously stored value. -/
theorem c7_argmin_tiebreak_changed_flag :
    (∀ (centroids : List Vec) (p : Vec), centroids ≠ [] →
      (nearestCluster centroids p).isSome) ∧
    (∀ (centroids : List Vec) (p : Vec) (j : ℕ), nearestCluster centroids p = some j →
      j < centroids.length ∧
      (∀ k, k < centroids.length →
        sqNorm (vsub (centroids.getD j []) p) ≤ sqNorm (vsub (centroids.getD k []) p)) ∧
      (∀ k, k < j →
        sqNorm (vsub (centroids.getD j []) p) < sqNorm (vsub (centroids.getD k []) p))) ∧
    (∀ (centroids data : List Vec) (oldMap nm : List ℕ) (unch : Bool),
      oldMap.length = data.length →
      assignGo centroids (data.zip oldMap) = .ok (nm, unch) →
      (∀ k, k < data.length →
        nearestCluster centroids (data.getD k []) = some (nm.getD k 0)) ∧
      (unch = false ↔ ∃ k, k < data.length ∧ nm.getD k 0 ≠ oldMap.getD k 0)) := by
  refine ⟨fun c p => (nearestCluster_spec c p).1, fun c p => (nearestCluster_spec c p).2, ?_⟩
  intro centroids data oldMap nm unch hlen h
  obtain ⟨hl, hn, hu⟩ := assignGo_spec centroids _ _ _ h
  have hzlen : (data.zip oldMap).length = data.length := by
    rw [List.length_zip]; omega
  have hu' : unch = true ↔ ∀ k, k < data.length → nm.getD k 0 = oldMap.getD k 0 := by
    rw [hu]
    constructor
    · intro hall k hk
      have := hall k (by omega)
      rwa [getD_zip ([] : Vec) 0 (by omega) (by omega)] at this
    · intro hall k hk
      rw [getD_zip ([] : Vec) 0 (by omega) (by omega)]
      exact hall k (by omega)
  constructor
  · intro k hk
    have := hn k (by omega)
    rwa [getD_zip ([] : Vec) 0 (by omega) (by omega)] at this
  · rw [show (unch = false) ↔ ¬(unch = true) from by cases unch <;> simp, hu']
    simp [not_forall]

/-- Witness for C7: centroids (0,0) and (3,3) with the point (1,1); the
nearest index exists and is 0, and a pass over one already-assigned point
reports no change. -/
theorem c7_witness :
    (nearestCluster [[0,0],[3,3]] [1,1]).isSome ∧
    (0 < ([[0,0],[3,3]] : List Vec).length ∧
      (∀ k, k < ([[0,0],[3,3]] : List Vec).length →
        sqNorm (vsub (([[0,0],[3,3]] : List Vec).getD 0 []) [1,1]) ≤
          sqNorm (vsub (([[0,0],[3,3]] : List Vec).getD k []) [1,1])) ∧
      (∀ k, k < 0 →
        sqNorm (vsub (([[0,0],[3,3]] : List Vec).getD 0 []) [1,1]) <
          sqNorm (vsub (([[0,0],[3,3]] : List Vec).getD k []) [1,1]))) ∧
    ((∀ k, k < ([[1,1]] : List Vec).length →
        nearestCluster [[0,0],[3,3]] (([[1,1]] : List Vec).getD k []) =
          some (([0] : List ℕ).getD k 0)) ∧
      ((true = false) ↔
        ∃ k, k < ([[1,1]] : List Vec).length ∧
          ([0] : List ℕ).getD k 0 ≠ ([0] : List ℕ).getD k 0)) :=
  ⟨c7_argmin_tiebreak_changed_flag.1 [[0,0],[3,3]] [1,1] (by simp),
   c7_argmin_tiebreak_changed_flag.2.1 [[0,0],[3,3]] [1,1] 0 (by with_unfolding_all rfl),
   c7_argmin_tiebreak_changed_flag.2.2 [[0,0],[3,3]] [[1,1]] [0] [0] true (by simp)
     (by with_unfolding_all rfl)⟩

/-- C8 (amended): for every successful run with at least one point and at
least one performed iteration, the buckets exactly partition the point
indices and their sizes sum to N; the number of buckets equals the number of
initial centroids K, which is min(K, N) only for the count-requesting entry
point (see the counterexample for explicit centroids with K > N). -/
theorem c8_buckets_partition (data centroids : List Vec) (maxIter : ℕ) (tol : ℚ)
    (r : KMeansResult) (h : cluster_ data centroids maxIter tol = .ok r)
    (hN : 1 ≤ data.length) (hit : 1 ≤ r.iterations) :
    r.buckets.length = centroids.length ∧
    (r.buckets.map List.length).sum = data.length ∧
    (∀ i, i < data.length → ∃! j, j < r.buckets.length ∧ i ∈ r.buckets.getD j []) := by
  obtain ⟨st, hl, hb, hc, hm, hi, hd⟩ := cluster__ok_elim _ _ _ _ _ h
  unfold mkBuckets at hb
  have hmaplen : st.map.length = data.length :=
    (loopGo_state_inv data tol _ maxIter _ st hl (by simp) rfl).1
  have hlen : r.buckets.length = centroids.length :=
    (mkBucketsGo_ok_length _ _ _ _ hb).trans (by simp)
  have hsum : (r.buckets.map List.length).sum = data.length := by
    rw [mkBucketsGo_sum _ _ _ _ hb]
    simp [hmaplen]
  have hchar := mkBucketsGo_char _ _ _ _ hb
  have hbound := mkBucketsGo_ok_bound _ _ _ _ hb
  refine ⟨hlen, hsum, ?_⟩
  intro i hi2
  have himap : st.map.getD i 0 < centroids.length := by
    have hmem : st.map.getD i 0 ∈ st.map := getD_mem 0 (by omega)
    simpa using hbound _ hmem
  have hmem_iff : ∀ j, j < centroids.length →
      (i ∈ r.buckets.getD j [] ↔ st.map.getD i 0 = j) := by
    intro j hj
    rw [hchar j (by simpa using hj)]
    rw [show (List.replicate centroids.length ([] : List ℕ)).getD j [] = [] from by
      simp [List.getD_eq_getElem?_getD, List.getElem?_replicate]
      split <;> rfl]
    rw [List.nil_append, mem_bucketSpec]
    constructor
    · rintro ⟨k, hk, hkj, hik⟩
      have : k = i := by omega
      subst this
      exact hkj
    · intro hij
      exact ⟨i, by omega, hij, by omega⟩
  refine ⟨st.map.getD i 0, ⟨by omega, (hmem_iff _ himap).mpr rfl⟩, ?_⟩
  rintro j ⟨hj, hjmem⟩
  exact ((hmem_iff j (by omega)).mp hjmem).symm

/-- Witness for C8: three points, two explicit centroids, one performed
iteration with an empty-cluster repair; the two buckets partition the three
indices. -/
theorem c8_witness :
    ([[0,0],[0,0],[3,3]] : List Vec).length = 3 ∧
    (cluster_ [[0,0],[0,0],[3,3]] [[100,100],[0,0]] 1 0 =
      .ok ⟨[[0,0],[0,0]], [1,1,0], [[2],[0,1]], 1, false⟩) ∧
    (([[2],[0,1]] : List (List ℕ)).map List.length).sum = 3 ∧
    (∀ i, i < 3 → ∃! j, j < ([[2],[0,1]] : List (List ℕ)).length ∧
      i ∈ ([[2],[0,1]] : List (List ℕ)).getD j []) := by
  have hrun : cluster_ [[0,0],[0,0],[3,3]] [[100,100],[0,0]] 1 0 =
      .ok ⟨[[0,0],[0,0]], [1,1,0], [[2],[0,1]], 1, false⟩ := by
    with_unfolding_all rfl
  have h := c8_buckets_partition [[0,0],[0,0],[3,3]] [[100,100],[0,0]] 1 0
    ⟨[[0,0],[0,0]], [1,1,0], [[2],[0,1]], 1, false⟩ hrun (by simp) (by simp)
  exact ⟨rfl, hrun, h.2.1, h.2.2⟩

/-- C3: in empty-cluster repair the relocated point is subtracted from the
source cluster's running sum and never added to the destination's sum, whose
count becomes 1; consequently a repaired cluster that still holds its point
at the final division (every non-degenerate run; a zero count there is the
division-by-zero hazard of C5) gets the zero vector as centroid rather than
the relocated point's location. -/
theorem c3_repair_never_adds_to_destination :
    (∀ (data : List Vec) (st : AccState) (i : ℕ) (d : ℚ) (jstar : ℕ),
      i < st.counts.length →
      st.counts.getD i 0 = 0 →
      1 ≤ st.counts.getD (largestCluster st.counts) 0 →
      farthestGo (largestCluster st.counts)
        (smul (1 / (st.counts.getD (largestCluster st.counts) 0 : ℚ))
          (st.sums.getD (largestCluster st.counts) []))
        (data.zip st.map) 0 none = some (d, jstar) →
      (repairOne data st i).sums.getD i [] = st.sums.getD i [] ∧
      (repairOne data st i).counts.getD i 0 = 1 ∧
      (repairOne data st i).sums.getD (largestCluster st.counts) [] =
        vsub (st.sums.getD (largestCluster st.counts) []) (data.getD jstar []) ∧
      (repairOne data st i).counts.getD (largestCluster st.counts) 0 =
        st.counts.getD (largestCluster st.counts) 0 - 1 ∧
      (repairOne data st i).map = st.map.set jstar i) ∧
    (∀ (data : List Vec) (mapAsg : List ℕ) (centroids : List Vec) (c : ℕ),
      c < centroids.length →
      mapAsg.length = data.length →
      (∀ e ∈ mapAsg, e < centroids.length) →
      (accumulateFrom data mapAsg centroids centroids.length).2.getD c 0 = 0 →
      (repairPass data centroids.length
        ⟨(accumulateFrom data mapAsg centroids centroids.length).1,
         (accumulateFrom data mapAsg centroids centroids.length).2,
         mapAsg⟩).counts.getD c 0 ≠ 0 →
      (divideCentroids
        (repairPass data centroids.length
          ⟨(accumulateFrom data mapAsg centroids centroids.length).1,
           (accumulateFrom data mapAsg centroids centroids.length).2, mapAsg⟩).sums
        (repairPass data centroids.length
          ⟨(accumulateFrom data mapAsg centroids centroids.length).1,
           (accumulateFrom data mapAsg centroids centroids.length).2,
           mapAsg⟩).counts).getD c []
        = (centroids.getD c []).map (fun _ => (0 : ℚ))) := by
  constructor
  · intro data st i d jstar hil h0 hcnt hf
    have hone : repairOne data st i =
        ⟨st.sums.set (largestCluster st.counts)
            (vsub (st.sums.getD (largestCluster st.counts) []) (data.getD jstar [])),
         (st.counts.set (largestCluster st.counts)
            (st.counts.getD (largestCluster st.counts) 0 - 1)).set i
           ((st.counts.set (largestCluster st.counts)
              (st.counts.getD (largestCluster st.counts) 0 - 1)).getD i 0 + 1),
         st.map.set jstar i⟩ := by
      simp only [repairOne]
      rw [if_neg (by omega), hf]
    have hsum : (repairOne data st i).sums =
        st.sums.set (largestCluster st.counts)
          (vsub (st.sums.getD (largestCluster st.counts) []) (data.getD jstar [])) := by
      rw [hone]
    have hcounts : (repairOne data st i).counts =
        (st.counts.set (largestCluster st.counts)
           (st.counts.getD (largestCluster st.counts) 0 - 1)).set i
          ((st.counts.set (largestCluster st.counts)
             (st.counts.getD (largestCluster st.counts) 0 - 1)).getD i 0 + 1) := by
      rw [hone]
    have hmap : (repairOne data st i).map = st.map.set jstar i := by
      rw [hone]
    have hti : largestCluster st.counts ≠ i := by
      intro h
      rw [h] at hcnt
      omega
    have htl : largestCluster st.counts < st.counts.length := by
      by_contra hx
      push_neg at hx
      rw [getD_eq_default _ hx] at hcnt
      omega
    refine ⟨?_, ?_, ?_, ?_, hmap⟩
    · rw [hsum, getD_set_ne _ _ hti]
    · rw [hcounts, getD_set_self _ _ (by rw [List.length_set]; omega)]
      rw [getD_set_ne _ _ hti, h0]
    · rw [hsum]
      by_cases hts : largestCluster st.counts < st.sums.length
      · rw [getD_set_self _ _ hts]
      · push_neg at hts
        rw [List.set_eq_of_length_le hts, getD_eq_default _ hts]
        rfl
    · rw [hcounts, getD_set_ne _ _ (fun h => hti h.symm), getD_set_self _ _ htl]
  · intro data mapAsg centroids c hcK hlen hent h0 hne
    have hhist0 : ∀ j, j < centroids.length →
        (accumulateFrom data mapAsg centroids centroids.length).2.getD j 0
          = mapAsg.count j := by
      intro j hj
      unfold accumulateFrom
      rw [accumGo_counts _ _ _ j (by simp [hj])]
      rw [show (List.replicate centroids.length (0 : ℕ)).getD j 0 = 0 from by
        simp [List.getD_eq_getElem?_getD, List.getElem?_replicate, hj]]
      rw [List.map_snd_zip data mapAsg (by omega)]
      simp
    have hinv0 : histInv data centroids.length
        ⟨(accumulateFrom data mapAsg centroids centroids.length).1,
         (accumulateFrom data mapAsg centroids centroids.length).2, mapAsg⟩ := by
      refine ⟨hlen, ?_, ?_, hent, hhist0⟩
      · unfold accumulateFrom
        rw [(accumGo_lengths _ _ _).2]
        simp
      · unfold accumulateFrom
        rw [(accumGo_lengths _ _ _).1]
        simp
    have hz : (accumulateFrom data mapAsg centroids centroids.length).1.getD c []
        = (centroids.getD c []).map (fun _ => (0 : ℚ)) := by
      have hcnt0 : mapAsg.count c = 0 := by
        rw [← hhist0 c hcK]
        exact h0
      unfold accumulateFrom
      rw [accumGo_sums_untouched _ _ _ c (by rw [List.map_snd_zip data mapAsg (by omega)]; exact hcnt0)]
      exact getD_map _ [] [] hcK
    obtain ⟨hinvF, hcF, hsF⟩ := repairPass_repaired_cluster data centroids.length
      ⟨(accumulateFrom data mapAsg centroids centroids.length).1,
       (accumulateFrom data mapAsg centroids centroids.length).2, mapAsg⟩ c hcK hinv0 h0 hne
    have hslen := hinvF.2.2.1
    have hclen := hinvF.2.1
    unfold divideCentroids
    rw [getD_zipWith ([] : Vec) 0 ([] : Vec) (by omega) (by omega)]
    rw [hcF, hsF, hz]
    simp [smul, List.map_map, Function.comp]

/-- Witness for C3: three points with two explicit centroids; cluster 0 is
empty after accumulation, the repair moves point 2 (the farthest point of
cluster 1) without adding it to cluster 0's sum, and cluster 0's final
centroid is the zero vector, not (3,3). -/
theorem c3_witness :
    ((repairOne [[0,0],[0,0],[3,3]] ⟨[[0,0],[3,3]], [0,3], [1,1,1]⟩ 0).sums.getD 0 [] =
        ([[0,0],[3,3]] : List Vec).getD 0 [] ∧
      (repairOne [[0,0],[0,0],[3,3]] ⟨[[0,0],[3,3]], [0,3], [1,1,1]⟩ 0).counts.getD 0 0 = 1 ∧
      (repairOne [[0,0],[0,0],[3,3]] ⟨[[0,0],[3,3]], [0,3], [1,1,1]⟩ 0).sums.getD
          (largestCluster [0,3]) [] =
        vsub (([[0,0],[3,3]] : List Vec).getD (largestCluster [0,3]) [])
          (([[0,0],[0,0],[3,3]] : List Vec).getD 2 []) ∧
      (repairOne [[0,0],[0,0],[3,3]] ⟨[[0,0],[3,3]], [0,3], [1,1,1]⟩ 0).counts.getD
          (largestCluster [0,3]) 0 = ([0,3] : List ℕ).getD (largestCluster [0,3]) 0 - 1 ∧
      (repairOne [[0,0],[0,0],[3,3]] ⟨[[0,0],[3,3]], [0,3], [1,1,1]⟩ 0).map =
        ([1,1,1] : List ℕ).set 2 0) ∧
    (divideCentroids
        (repairPass [[0,0],[0,0],[3,3]] 2
          ⟨(accumulateFrom [[0,0],[0,0],[3,3]] [1,1,1] [[100,100],[0,0]] 2).1,
           (accumulateFrom [[0,0],[0,0],[3,3]] [1,1,1] [[100,100],[0,0]] 2).2, [1,1,1]⟩).sums
        (repairPass [[0,0],[0,0],[3,3]] 2
          ⟨(accumulateFrom [[0,0],[0,0],[3,3]] [1,1,1] [[100,100],[0,0]] 2).1,
           (accumulateFrom [[0,0],[0,0],[3,3]] [1,1,1] [[100,100],[0,0]] 2).2,
           [1,1,1]⟩).counts).getD 0 []
      = (([[100,100],[0,0]] : List Vec).getD 0 []).map (fun _ => (0 : ℚ)) :=
  ⟨c3_repair_never_adds_to_destination.1 [[0,0],[0,0],[3,3]]
      ⟨[[0,0],[3,3]], [0,3], [1,1,1]⟩ 0 8 2 (by decide) (by decide) (by decide)
      (by with_unfolding_all rfl),
   c3_repair_never_adds_to_destination.2 [[0,0],[0,0],[3,3]] [1,1,1] [[100,100],[0,0]] 0
      (by decide) (by decide) (by decide) (by with_unfolding_all rfl)
      (by with_unfolding_all exact Nat.one_ne_zero)⟩

end Claims

end Cilantro
